import Mathlib

/-!
Verification of the SimpleMux connection multiplexer
(`src/inet/mux/simple_mux.go`).

The Go code is shallowly embedded. Machine integers become `Nat`/`Int`
with explicit `% 2 ^ w` where overflow matters. The lock-free packet
queue's pointer structure becomes an index-addressed node heap (an index
into `heap` plays the role of a pointer; `Option Nat` is a possibly-nil
pointer), with the sequential semantics of the compare-and-swap loops:
in a single-thread execution every CAS succeeds on its first attempt.
Capacity-one channels become a `Bool` (is a token pending) or an
`Option` (the buffered value). The blocking receive loop becomes a
function over an explicit trace of wake-up events. Ghost counters
(`errRaises`, `connCloseCount`) count how often an effect fired; they
change nothing observable.
-/

namespace SimpleMuxVerification

/-- Byte strings are lists of byte values. -/
abbrev Bytes := List Nat

/-- Parsed protocol header (the `SimpleMuxHeader` interface of the source):
a session id (`uint64`, modelled as `Nat`) and a body length (`int64`,
modelled as `Int`). -/
structure SimpleMuxHeader where
  sessionID : Nat
  bodyLen : Int
deriving DecidableEq, Repr

/-- `Packet` from the source: protocol header plus body bytes.  A Go `nil`
body is the empty list. -/
structure Packet where
  header : SimpleMuxHeader
  body : Bytes
deriving DecidableEq, Repr

/-- The distinct error values that appear in `simple_mux.go`:
`kSimpleMuxClosed`, `kSessionClosed`, `kSessionRdTimeout`, plus the two
externally produced failures the reader loop can observe (an `io` error
from `ReadFull`/`Write` on the connection, and a header-parser error). -/
inductive MuxError where
  | simpleMuxClosed
  | sessionClosed
  | sessionRdTimeout
  | transportErr
  | parseErr
deriving DecidableEq, Repr

/-- `timeoutError.Timeout()` is true only for the receive-timeout value. -/
def MuxError.isTimeout : MuxError → Bool
  | .sessionRdTimeout => true
  | _ => false

/-- `packetNode` from the source: payload pointer (`*Packet`, possibly nil
for the dummy node) and next pointer. -/
structure packetNode where
  val : Option Packet
  next : Option Nat
deriving DecidableEq, Repr

/-- `packetQueue` from the source: Michael-Scott queue with a dummy node.
`heap` is the set of allocated nodes addressed by index; `head` and `tail`
are node addresses. -/
structure packetQueue where
  heap : List packetNode
  head : Nat
  tail : Nat
deriving DecidableEq, Repr

/-- `newPacketQueue`: head and tail point at the dummy node. -/
def newPacketQueue : packetQueue :=
  { heap := [{ val := none, next := none }], head := 0, tail := 0 }

/-- Store `some j` into the `next` field of the node at address `i`. -/
def setNodeNext : List packetNode → Nat → Nat → List packetNode
  | [], _, _ => []
  | nd :: rest, 0, j => { nd with next := some j } :: rest
  | nd :: rest, i + 1, j => nd :: setNodeNext rest i j

/-- `packetQueue.push`: allocate a node holding `val`, link it behind the
current tail (the successful `CompareAndSwapPointer(&rt.next, nil, node)`),
then advance the tail (the successful second CAS). -/
def packetQueue.push (pq : packetQueue) (val : Packet) : packetQueue :=
  let node : packetNode := { val := some val, next := none }
  let idx := pq.heap.length
  { heap := setNodeNext (pq.heap ++ [node]) pq.tail idx
    head := pq.head
    tail := idx }

/-- `packetQueue.pop`: read the head node's `next`; if nil the queue is
empty, otherwise advance `head` past it (the successful CAS) and return
that node's payload. -/
def packetQueue.pop (pq : packetQueue) : Option Packet × packetQueue :=
  match pq.heap[pq.head]? with
  | none => (none, pq)
  | some rh =>
    match rh.next with
    | none => (none, pq)
    | some n =>
      match pq.heap[n]? with
      | none => (none, pq)
      | some nd => (nd.val, { pq with head := n })

/-- `Session` from the source.  `muxAttached` models whether the back
pointer `sess.mux` is non-nil (it is nilled by `Session.Close`).
`packetNoti` is the capacity-one `chan bool`; `errCh` is the capacity-one
`chan error` together with its buffered content.  `errRaises` is a ghost
counter of how many times a value was actually stored into `err`. -/
structure Session where
  id : Nat
  muxAttached : Bool
  packets : packetQueue
  rdTimeout : Int
  packetNoti : Bool
  errCh : Option MuxError
  errRaises : Nat
deriving DecidableEq, Repr

/-- `SimpleMux` state.  `sessHeap` holds every `*Session` object created
by `NewSession`, addressed by index; `allSess` is the registry map from
session id to `sessHeap` address.  `connClosed` is whether `conn.Close()`
ran, `connCloseCount` a ghost count of those calls, and `written` the
byte stream written to the connection so far.  The header parser is not
stored but passed to the reader-loop function directly. -/
structure SimpleMux where
  closed : Bool
  sessHeap : List Session
  allSess : List (Nat × Nat)
  hasDefHandler : Bool
  defPacketQ : packetQueue
  defNotiChnl : Bool
  defQuitSignaled : Bool
  connClosed : Bool
  connCloseCount : Nat
  written : Bytes
deriving DecidableEq, Repr

/-- Go map read `mux.allSess[id]` on the association-list registry. -/
def findSess : List (Nat × Nat) → Nat → Option Nat
  | [], _ => none
  | (k, v) :: rest, id => if k = id then some v else findSess rest id

/-- Point update of the session heap at one address. -/
def listModify (f : Session → Session) : List Session → Nat → List Session
  | [], _ => []
  | s :: rest, 0 => f s :: rest
  | s :: rest, i + 1 => s :: listModify f rest i

/-- `asyncNotifyError(sess.err, e)`: a non-blocking send on the
capacity-one error channel; dropped when the channel already holds a
value.  The ghost counter records an actual store. -/
def raiseErr (e : MuxError) (s : Session) : Session :=
  match s.errCh with
  | none => { s with errCh := some e, errRaises := s.errRaises + 1 }
  | some _ => s

/-- The `for _, sess := range mux.allSess { asyncNotifyError(sess.err, err) }`
loop of `SimpleMux.close`, over the registry's heap addresses. -/
def notifyAll (e : MuxError) (reg : List (Nat × Nat)) (h : List Session) : List Session :=
  reg.foldl (fun acc pr => listModify (raiseErr e) acc pr.2) h

/-- `SimpleMux.close(err)`: under the registry lock, when not yet closed:
broadcast `err` to every registered session, signal the default worker to
quit, clear the registry, mark closed and close the connection. -/
def SimpleMux.close (m : SimpleMux) (e : MuxError) : SimpleMux :=
  if m.closed then m
  else
    { m with
      sessHeap := notifyAll e m.allSess m.sessHeap
      defQuitSignaled := m.hasDefHandler || m.defQuitSignaled
      allSess := []
      closed := true
      connClosed := true
      connCloseCount := m.connCloseCount + 1 }

/-- The public `SimpleMux.Close`, which runs `close(kSimpleMuxClosed)`. -/
def SimpleMux.Close (m : SimpleMux) : SimpleMux :=
  m.close .simpleMuxClosed

/-- `SimpleMux.closeSession`: remove the registry binding when the mux is
still open. -/
def SimpleMux.closeSession (m : SimpleMux) (sessID : Nat) : SimpleMux :=
  if m.closed then m
  else { m with allSess := m.allSess.filter (fun pr => pr.1 != sessID) }

/-- `Session.Close`: when the back pointer is non-nil, deregister from the
mux and nil the back pointer. -/
def Session.close (m : SimpleMux) (sess : Session) : SimpleMux × Session :=
  if sess.muxAttached then (m.closeSession sess.id, { sess with muxAttached := false })
  else (m, sess)

/-- `conn.Write(b)`: a write on the (exclusively owned) connection.  After
`conn.Close()` it fails with an I/O error; otherwise it appends `b` to the
transport byte stream. -/
def connWrite (m : SimpleMux) (b : Bytes) : (Nat × Option MuxError) × SimpleMux :=
  if m.connClosed then ((0, some .transportErr), m)
  else ((b.length, none), { m with written := m.written ++ b })

/-- `Session.Send`: write directly to the mux's connection when the back
pointer is non-nil, else fail with `kSessionClosed`. -/
def Session.send (m : SimpleMux) (sess : Session) (b : Bytes) :
    (Nat × Option MuxError) × SimpleMux :=
  if sess.muxAttached then connWrite m b
  else ((0, some .sessionClosed), m)

/-- `Session.SetRecvTimeout`. -/
def Session.setRecvTimeout (sess : Session) (timeout : Int) : Session :=
  { sess with rdTimeout := timeout }

/-- `SimpleMux.getNextSessID` as a function of the current wall-clock
seconds and of the stored 32-bit counter `mux.nextSessID`: increment the
counter (wrapping at `2^32`), increment once more when it wrapped to zero,
and combine `uint64(time.Now().Unix()) << 32 | uint64(baseID)` in 64-bit
arithmetic.  Returns the id and the new stored counter value. -/
def getNextSessID (nowUnix : Nat) (counter : Nat) : Nat × Nat :=
  let b1 := (counter + 1) % 4294967296
  let base := if b1 = 0 then (b1 + 1) % 4294967296 else b1
  ((((nowUnix % 18446744073709551616) <<< 32) % 18446744073709551616) ||| base, base)

/-- The ids produced by successive `NewSession` calls on one mux whose
counter starts at zero; `times i` is the wall-clock second at which call
`i` happens. -/
def sessIDSeq (times : Nat → Nat) : Nat → Nat × Nat
  | 0 => getNextSessID (times 0) 0
  | i + 1 => getNextSessID (times (i + 1)) (sessIDSeq times i).2

/-- Modelled from the spec: the spec's session-id generation rule, whose
high 32 bits are the *transport-open* wall-clock seconds (a constant of
the mux) rather than the seconds at the moment of the `new_session`
call; the low 32 bits are the counter value. -/
def specSessionID (openUnix : Nat) (counterVal : Nat) : Nat :=
  (openUnix % 4294967296) * 4294967296 + counterVal

/-- Where a frame read by the reader loop ends up. -/
inductive RouteOutcome where
  | toSession (id : Nat)
  | toDefault
  | dropped
  | stopClosed
deriving DecidableEq, Repr

/-- `sess.packets.push(packet); asyncNotify(sess.packetNoti)`. -/
def deliverPacket (s : Session) (pkt : Packet) : Session :=
  { s with packets := s.packets.push pkt, packetNoti := true }

/-- Steps 5-6 of a reader-loop iteration: under the registry read lock,
break when the mux is closed, else look the session up by the header's
session id; push to its queue and signal it, else to the default pipeline
when a default handler is installed, else drop the frame. -/
def SimpleMux.routePacket (m : SimpleMux) (pkt : Packet) : SimpleMux × RouteOutcome :=
  if m.closed then (m, .stopClosed)
  else
    match findSess m.allSess pkt.header.sessionID with
    | some idx =>
      ({ m with sessHeap := listModify (fun s => deliverPacket s pkt) m.sessHeap idx },
        .toSession pkt.header.sessionID)
    | none =>
      if m.hasDefHandler then
        ({ m with defPacketQ := m.defPacketQ.push pkt, defNotiChnl := true }, .toDefault)
      else (m, .dropped)

/-- `io.ReadFull(conn, buf)` on the modelled inbound byte stream: consume
exactly `n` bytes or fail. -/
def readFull (input : Bytes) (n : Nat) : Option (Bytes × Bytes) :=
  if n ≤ input.length then some (input.take n, input.drop n) else none

/-- Result of one reader-loop iteration.  `fatal e m` is a break out of
the loop followed by `mux.close(err)`; `stopped` is the break taken when
the mux was observed closed (the following `mux.close(err)` is a no-op
because `closed` is already set); `delivered` carries the new mux state,
the routing outcome and the unread remainder of the inbound stream. -/
inductive LoopStep where
  | fatal (e : MuxError) (m : SimpleMux)
  | stopped (m : SimpleMux)
  | delivered (m : SimpleMux) (out : RouteOutcome) (rest : Bytes)
deriving DecidableEq, Repr

def LoopStep.isFatal : LoopStep → Bool
  | .fatal _ _ => true
  | _ => false

def LoopStep.routeOf : LoopStep → Option RouteOutcome
  | .delivered _ out _ => some out
  | _ => none

def LoopStep.muxOf : LoopStep → SimpleMux
  | .fatal _ m => m
  | .stopped m => m
  | .delivered m _ _ => m

/-- Routing followed by the loop's break-on-closed behaviour. -/
def routeStep (m : SimpleMux) (pkt : Packet) (rest : Bytes) : LoopStep :=
  match m.routePacket pkt with
  | (m', .stopClosed) => .stopped m'
  | (m', out) => .delivered m' out rest

/-- One iteration of `SimpleMux.loop`: read `hdrSz` header bytes, parse
them, read `bodyLen` body bytes only when `bodyLen > 0` (the packet body
stays nil otherwise), then route.  Read and parse failures break out of
the loop into `mux.close(err)`. -/
def loopIteration (hdrSz : Nat) (hdrParser : Bytes → Option SimpleMuxHeader)
    (m : SimpleMux) (input : Bytes) : LoopStep :=
  match readFull input hdrSz with
  | none => .fatal .transportErr (m.close .transportErr)
  | some (hdr, afterHdr) =>
    match hdrParser hdr with
    | none => .fatal .parseErr (m.close .parseErr)
    | some muxHdr =>
      if 0 < muxHdr.bodyLen then
        match readFull afterHdr muxHdr.bodyLen.toNat with
        | none => .fatal .transportErr (m.close .transportErr)
        | some (body, rest) => routeStep m { header := muxHdr, body := body } rest
      else
        routeStep m { header := muxHdr, body := [] } afterHdr

/-- One wake-up of the `select` in `Session.Recv`, together with the
packets the reader pushed onto this session's queue (each push also
posting the coalesced data-available signal) since the last look:
`notiW` is the data-available branch, `errW` the error-channel branch,
`timeoutW` the timer branch. -/
inductive Wakeup where
  | notiW (pushed : List Packet)
  | errW (pushed : List Packet)
  | timeoutW (pushed : List Packet)
deriving DecidableEq, Repr

/-- How a `Session.Recv` call ends.  `blocked` models a call that is still
suspended in the `select` when the event trace runs out. -/
inductive RecvOutcome where
  | packet (p : Packet)
  | error (e : MuxError)
  | blocked
deriving DecidableEq, Repr

/-- Apply the reader's concurrent pushes: each push enqueues the packet
and posts the coalesced capacity-one notification. -/
def applyPushes (sess : Session) (pushed : List Packet) : Session :=
  pushed.foldl deliverPacket sess

/-- `Session.Recv` over an explicit trace of wake-up events.  Each loop
iteration first pops the queue and returns any packet.  Otherwise it
suspends: the data-available branch consumes the notification token and
retries; the error branch returns the channel's error; the timer branch
returns `kSessionRdTimeout` - but the timer is armed only when
`rdTimeout > 0` (`timeout` stays a nil channel otherwise and that branch
can never fire, so such an event is skipped). -/
def Session.recv (sess : Session) : List Wakeup → RecvOutcome × Session
  | [] =>
    match sess.packets.pop with
    | (some p, pq') => (.packet p, { sess with packets := pq' })
    | (none, _) => (.blocked, sess)
  | w :: rest =>
    match sess.packets.pop with
    | (some p, pq') => (.packet p, { sess with packets := pq' })
    | (none, _) =>
      match w with
      | .notiW pushed =>
        Session.recv { applyPushes sess pushed with packetNoti := false } rest
      | .errW pushed =>
        match (applyPushes sess pushed).errCh with
        | some e => (.error e, { applyPushes sess pushed with errCh := none })
        | none => (.blocked, applyPushes sess pushed)
      | .timeoutW pushed =>
        if 0 < (applyPushes sess pushed).rdTimeout then
          (.error .sessionRdTimeout, applyPushes sess pushed)
        else
          Session.recv (applyPushes sess pushed) rest

/-- The chain of node addresses reachable from `i` through `next`
pointers: `ChainFrom heap i sp` says the node at `i` exists and the
addresses in `sp` are its strict successors, the last one having a nil
`next`. -/
def ChainFrom (heap : List packetNode) : Nat → List Nat → Prop
  | i, [] => ∃ nd, heap[i]? = some nd ∧ nd.next = none
  | i, j :: rest => (∃ nd, heap[i]? = some nd ∧ nd.next = some j) ∧ ChainFrom heap j rest

/-- The last address of a chain starting at `i`. -/
def endOf (i : Nat) : List Nat → Nat
  | [] => i
  | j :: rest => endOf j rest

/-- Queue representation invariant: some spine of addresses links head to
tail, its nodes carry exactly the pending packets `l` in order, and no
address repeats. -/
def Rep (pq : packetQueue) (l : List Packet) : Prop :=
  ∃ spine : List Nat,
    ChainFrom pq.heap pq.head spine ∧
    List.Forall₂ (fun j p => ∃ nd, pq.heap[j]? = some nd ∧ nd.val = some p) spine l ∧
    endOf pq.head spine = pq.tail ∧
    (pq.head :: spine).Nodup

/-! ### Helper lemmas about the linked packet queue -/

lemma getElem?_append_some {α : Type} {l l' : List α} {i : Nat} {a : α}
    (h : l[i]? = some a) : (l ++ l')[i]? = some a := by
  obtain ⟨hlt, -⟩ := List.getElem?_eq_some.mp h
  rw [List.getElem?_append_left hlt]
  exact h

lemma setNodeNext_getElem? (h : List packetNode) (t n : Nat) :
    ∀ k, (setNodeNext h t n)[k]? =
      if k = t then (h[k]?).map (fun nd => { nd with next := some n }) else h[k]? := by
  induction h generalizing t with
  | nil => intro k; simp [setNodeNext]
  | cons nd rest ih =>
    intro k
    cases t with
    | zero =>
      cases k with
      | zero => simp [setNodeNext]
      | succ k => simp [setNodeNext]
    | succ t =>
      cases k with
      | zero => simp [setNodeNext]
      | succ k => simpa [setNodeNext] using ih t k

lemma listModify_getElem? (f : Session → Session) (l : List Session) :
    ∀ i k, (listModify f l i)[k]? = if k = i then (l[k]?).map f else l[k]? := by
  induction l with
  | nil => intro i k; simp [listModify]
  | cons s rest ih =>
    intro i k
    cases i with
    | zero =>
      cases k with
      | zero => simp [listModify]
      | succ k => simp [listModify]
    | succ i =>
      cases k with
      | zero => simp [listModify]
      | succ k => simpa [listModify] using ih i k

lemma endOf_append (sp : List Nat) (i n : Nat) : endOf i (sp ++ [n]) = n := by
  induction sp generalizing i with
  | nil => rfl
  | cons j rest ih => simpa [endOf] using ih j

lemma endOf_mem (sp : List Nat) (i : Nat) : endOf i sp ∈ i :: sp := by
  induction sp generalizing i with
  | nil => simp [endOf]
  | cons j rest ih => exact List.mem_cons_of_mem _ (ih j)

lemma chainFrom_node {heap : List packetNode} :
    ∀ {sp : List Nat} {i : Nat}, ChainFrom heap i sp →
      ∀ k ∈ i :: sp, ∃ nd, heap[k]? = some nd := by
  intro sp
  induction sp with
  | nil =>
    intro i hch k hk
    obtain ⟨nd, hget, -⟩ := hch
    rw [List.mem_singleton] at hk
    exact hk ▸ ⟨nd, hget⟩
  | cons j rest ih =>
    intro i hch k hk
    obtain ⟨⟨nd, hget, -⟩, hch'⟩ := hch
    rcases List.mem_cons.mp hk with hk | hk
    · exact hk ▸ ⟨nd, hget⟩
    · exact ih hch' k hk

lemma chainFrom_lt {heap : List packetNode} {sp : List Nat} {i : Nat}
    (hch : ChainFrom heap i sp) : ∀ k ∈ i :: sp, k < heap.length := by
  intro k hk
  obtain ⟨nd, hget⟩ := chainFrom_node hch k hk
  obtain ⟨hlt, -⟩ := List.getElem?_eq_some.mp hget
  exact hlt

lemma chain_push (heap : List packetNode) (x : packetNode) (hx : x.next = none) :
    ∀ (sp : List Nat) (i : Nat), ChainFrom heap i sp → (i :: sp).Nodup →
      ChainFrom (setNodeNext (heap ++ [x]) (endOf i sp) heap.length) i
        (sp ++ [heap.length]) := by
  intro sp
  induction sp with
  | nil =>
    intro i hch hnd
    obtain ⟨nd, hget, hnext⟩ := hch
    obtain ⟨hlt, -⟩ := List.getElem?_eq_some.mp hget
    constructor
    · refine ⟨{ nd with next := some heap.length }, ?_, rfl⟩
      rw [setNodeNext_getElem?]
      simp only [endOf, if_pos rfl]
      rw [getElem?_append_some hget]
      rfl
    · refine ⟨x, ?_, hx⟩
      rw [setNodeNext_getElem?]
      have hne : heap.length ≠ i := by omega
      simp only [endOf, if_neg hne]
      exact List.getElem?_concat_length heap x
  | cons j rest ih =>
    intro i hch hnd
    obtain ⟨⟨nd, hget, hnext⟩, hrest⟩ := hch
    have hne : i ≠ endOf j rest := by
      have hmem := endOf_mem rest j
      have hnin : i ∉ j :: rest := (List.nodup_cons.mp hnd).1
      intro he
      exact hnin (he ▸ hmem)
    constructor
    · refine ⟨nd, ?_, hnext⟩
      rw [setNodeNext_getElem?]
      simp only [endOf, if_neg hne]
      exact getElem?_append_some hget
    · exact ih j hrest (List.nodup_cons.mp hnd).2

/-- Pushing appends: the queue operation `packetQueue.push` preserves the
representation invariant and appends the packet at the back. -/
theorem Rep.push {pq : packetQueue} {l : List Packet} (h : Rep pq l) (p : Packet) :
    Rep (pq.push p) (l ++ [p]) := by
  obtain ⟨sp, hch, hf, hend, hnd⟩ := h
  have htail_lt : pq.tail < pq.heap.length :=
    chainFrom_lt hch pq.tail (hend ▸ endOf_mem sp pq.head)
  refine ⟨sp ++ [pq.heap.length], ?_, ?_, ?_, ?_⟩
  · have := chain_push pq.heap { val := some p, next := none } rfl sp pq.head hch hnd
    rw [hend] at this
    simpa [packetQueue.push] using this
  · refine List.rel_append ?_ ?_
    · refine hf.imp ?_
      intro j q hR
      obtain ⟨nd, hget, hval⟩ := hR
      simp only [packetQueue.push]
      rw [setNodeNext_getElem?]
      by_cases hj : j = pq.tail
      · subst hj
        refine ⟨{ nd with next := some pq.heap.length }, ?_, hval⟩
        rw [if_pos rfl, getElem?_append_some hget]
        rfl
      · refine ⟨nd, ?_, hval⟩
        rw [if_neg hj]
        exact getElem?_append_some hget
    · refine List.Forall₂.cons ?_ List.Forall₂.nil
      refine ⟨{ val := some p, next := none }, ?_, rfl⟩
      simp only [packetQueue.push]
      rw [setNodeNext_getElem?]
      have hne : pq.heap.length ≠ pq.tail := by omega
      rw [if_neg hne]
      exact List.getElem?_concat_length _ _
  · simp [packetQueue.push, endOf_append]
  · have hbound : ∀ k ∈ pq.head :: sp, k < pq.heap.length := chainFrom_lt hch
    have : (pq.head :: sp) ++ [pq.heap.length] = pq.head :: (sp ++ [pq.heap.length]) := by
      simp
    rw [packetQueue.push, ← this]
    rw [List.nodup_append]
    refine ⟨hnd, by simp, ?_⟩
    intro a ha hb
    rw [List.mem_singleton] at hb
    have := hbound a ha
    omega

/-- Popping takes the front: `packetQueue.pop` returns the oldest pending
packet (or `none` on an empty queue) and preserves the invariant on the
remainder. -/
theorem Rep.pop_eq {pq : packetQueue} {l : List Packet} (h : Rep pq l) :
    (pq.pop).1 = l.head? ∧ Rep (pq.pop).2 l.tail := by
  obtain ⟨sp, hch, hf, hend, hnd⟩ := h
  cases l with
  | nil =>
    have hsp : sp = [] := List.forall₂_nil_right_iff.mp hf
    subst hsp
    obtain ⟨nd, hget, hnext⟩ := hch
    constructor
    · simp [packetQueue.pop, hget, hnext]
    · simp only [packetQueue.pop, hget, hnext]
      exact ⟨[], ⟨nd, hget, hnext⟩, List.Forall₂.nil, hend, hnd⟩
  | cons p l' =>
    obtain ⟨j, sp', hR, hf', hspeq⟩ := List.forall₂_cons_right_iff.mp hf
    subst hspeq
    obtain ⟨⟨rh, hhget, hhnext⟩, hch'⟩ := hch
    obtain ⟨nd, hjget, hjval⟩ := hR
    constructor
    · simp [packetQueue.pop, hhget, hhnext, hjget, hjval]
    · simp only [packetQueue.pop, hhget, hhnext, hjget]
      refine ⟨sp', hch', hf', ?_, (List.nodup_cons.mp hnd).2⟩
      simpa [endOf] using hend

/-- The invariant holds for the freshly constructed queue. -/
theorem rep_new : Rep newPacketQueue [] :=
  ⟨[], ⟨{ val := none, next := none }, rfl, rfl⟩, List.Forall₂.nil, rfl, by simp⟩

/-! ### Helper lemmas about sessions and the mux registry -/

lemma applyPushes_errCh (pushed : List Packet) :
    ∀ sess : Session, (applyPushes sess pushed).errCh = sess.errCh := by
  induction pushed with
  | nil => intro sess; rfl
  | cons p ps ih => intro sess; simpa [applyPushes, deliverPacket] using ih (deliverPacket sess p)

lemma applyPushes_rdTimeout (pushed : List Packet) :
    ∀ sess : Session, (applyPushes sess pushed).rdTimeout = sess.rdTimeout := by
  induction pushed with
  | nil => intro sess; rfl
  | cons p ps ih => intro sess; simpa [applyPushes, deliverPacket] using ih (deliverPacket sess p)

lemma applyPushes_rep (pushed : List Packet) :
    ∀ (sess : Session) (l : List Packet), Rep sess.packets l →
      Rep (applyPushes sess pushed).packets (l ++ pushed) := by
  induction pushed with
  | nil => intro sess l h; simpa [applyPushes] using h
  | cons p ps ih =>
    intro sess l h
    have h1 : Rep (deliverPacket sess p).packets (l ++ [p]) := h.push p
    have := ih (deliverPacket sess p) (l ++ [p]) h1
    simpa [applyPushes] using this

lemma raiseErr_idem (e : MuxError) (s : Session) :
    raiseErr e (raiseErr e s) = raiseErr e s := by
  cases h : s.errCh <;> simp [raiseErr, h]

lemma notifyAll_getElem? (e : MuxError) (reg : List (Nat × Nat)) :
    ∀ (h : List Session) (j : Nat), (notifyAll e reg h)[j]? =
      if j ∈ reg.map Prod.snd then (h[j]?).map (raiseErr e) else h[j]? := by
  induction reg with
  | nil => intro h j; simp [notifyAll]
  | cons pr rest ih =>
    intro h j
    have hstep : notifyAll e (pr :: rest) h =
        notifyAll e rest (listModify (raiseErr e) h pr.2) := rfl
    rw [hstep, ih, listModify_getElem?]
    by_cases h2 : j = pr.2
    · by_cases h1 : j ∈ rest.map Prod.snd
      · rw [if_pos h1, if_pos h2]
        rw [if_pos (by simp [h2])]
        cases hx : h[j]? <;> simp [raiseErr_idem]
      · rw [if_neg h1, if_pos h2]
        rw [if_pos (by simp [h2])]
    · by_cases h1 : j ∈ rest.map Prod.snd
      · rw [if_pos h1, if_neg h2]
        rw [if_pos (by simp [h1])]
      · rw [if_neg h1, if_neg h2]
        rw [if_neg (by simp [h1, h2])]

/-- Any error returned by `Session.Recv` is either the timeout error or
was the content of the session's error channel: the receive path never
manufactures `kSessionClosed`. -/
lemma recv_error_src (ws : List Wakeup) :
    ∀ (sess : Session) (e : MuxError), (sess.recv ws).1 = RecvOutcome.error e →
      e = MuxError.sessionRdTimeout ∨ sess.errCh = some e := by
  induction ws with
  | nil =>
    intro sess e h
    rcases hpp : sess.packets.pop with ⟨o, pq2⟩
    cases o <;> simp [Session.recv, hpp] at h
  | cons w rest ih =>
    intro sess e h
    rcases hpp : sess.packets.pop with ⟨o, pq2⟩
    cases o with
    | some p => simp [Session.recv, hpp] at h
    | none =>
      cases w with
      | notiW pushed =>
        simp only [Session.recv, hpp] at h
        rcases ih _ _ h with h1 | h1
        · exact Or.inl h1
        · right
          rw [← applyPushes_errCh pushed sess]
          exact h1
      | errW pushed =>
        simp only [Session.recv, hpp] at h
        rcases herr2 : (applyPushes sess pushed).errCh with - | e2
        · rw [herr2] at h
          simp at h
        · rw [herr2] at h
          simp only [RecvOutcome.error.injEq] at h
          right
          rw [← applyPushes_errCh pushed sess, herr2, h]
      | timeoutW pushed =>
        simp only [Session.recv, hpp] at h
        by_cases ht : 0 < (applyPushes sess pushed).rdTimeout
        · rw [if_pos ht] at h
          simp only [RecvOutcome.error.injEq] at h
          exact Or.inl h.symm
        · rw [if_neg ht] at h
          rcases ih _ _ h with h1 | h1
          · exact Or.inl h1
          · right
            rw [← applyPushes_errCh pushed sess]
            exact h1

/-- When the session queue is non-empty, `Session.Recv` immediately
returns the front packet, whatever the event trace. -/
lemma recv_rep_cons {sess : Session} {p : Packet} {l : List Packet}
    (hrep : Rep sess.packets (p :: l)) (ws : List Wakeup) :
    (sess.recv ws).1 = RecvOutcome.packet p ∧ Rep ((sess.recv ws).2).packets l := by
  obtain ⟨h1, h2⟩ := Rep.pop_eq hrep
  rcases hpp : sess.packets.pop with ⟨o, pq2⟩
  rw [hpp] at h1 h2
  simp only [List.head?] at h1
  subst h1
  cases ws with
  | nil =>
    constructor
    · simp [Session.recv, hpp]
    · simp only [Session.recv, hpp]
      exact h2
  | cons w rest =>
    constructor
    · simp [Session.recv, hpp]
    · simp only [Session.recv, hpp]
      exact h2

/-! ### Concrete fixtures used by witnesses and counterexamples -/

/-- A sample packet for session id 5. -/
def pkt0 : Packet := { header := { sessionID := 5, bodyLen := 0 }, body := [] }

/-- A freshly created session with id 7 (as built by `NewSession`). -/
def sess7 : Session :=
  { id := 7, muxAttached := true, packets := newPacketQueue, rdTimeout := 0,
    packetNoti := false, errCh := none, errRaises := 0 }

/-- An open mux with the single session `sess7` registered. -/
def mux7 : SimpleMux :=
  { closed := false, sessHeap := [sess7], allSess := [(7, 0)], hasDefHandler := false,
    defPacketQ := newPacketQueue, defNotiChnl := false, defQuitSignaled := false,
    connClosed := false, connCloseCount := 0, written := [] }

/-! ### Claim C6 -/

/-- C6: frames come out of a session in the order the reader enqueued
them.  For every queue state representing the pending frame list `l`,
`pop` returns the oldest unpopped frame (`l.head?`, so `none` exactly on
the empty queue) leaving the rest in order, `push` appends at the back,
and `Session.Recv` on a session whose queue holds `p` first returns `p`. -/
theorem claim6_recv_fifo (pq : packetQueue) (l : List Packet) (h : Rep pq l) :
    (pq.pop).1 = l.head? ∧ Rep (pq.pop).2 l.tail ∧
    (∀ p : Packet, Rep (pq.push p) (l ++ [p])) ∧
    (∀ (sess : Session) (ws : List Wakeup) (p : Packet) (l' : List Packet),
      sess.packets = pq → l = p :: l' → (sess.recv ws).1 = RecvOutcome.packet p) := by
  refine ⟨(Rep.pop_eq h).1, (Rep.pop_eq h).2, fun p => h.push p, ?_⟩
  intro sess ws p l' hpq hl
  have h' : Rep sess.packets (p :: l') := by rw [hpq]; exact hl ▸ h
  obtain ⟨h1, -⟩ := Rep.pop_eq h'
  rcases hpp : sess.packets.pop with ⟨o, pq2⟩
  rw [hpp] at h1
  simp only [List.head?] at h1
  subst h1
  cases ws <;> · simp only [Session.recv]; rw [hpp]

theorem claim6_witness :
    ((newPacketQueue.push pkt0).pop).1 = List.head? [pkt0] :=
  (claim6_recv_fifo (newPacketQueue.push pkt0) [pkt0] (by simpa using rep_new.push pkt0)).1

/-! ### Claim C5 -/

/-- C5: a frame read by the reader loop goes to at most one destination.
When the mux is closed nothing is delivered; when the header's session id
is registered, exactly that session's queue receives the frame (every
other heap slot and the default queue are untouched); when it is not
registered the frame goes to the default queue if a default handler is
installed and is silently dropped otherwise (the state is unchanged). -/
theorem claim5_route_unique (m : SimpleMux) (pkt : Packet) :
    (m.closed = true → m.routePacket pkt = (m, RouteOutcome.stopClosed)) ∧
    (m.closed = false →
      ∀ idx, findSess m.allSess pkt.header.sessionID = some idx →
        (m.routePacket pkt).2 = RouteOutcome.toSession pkt.header.sessionID ∧
        (m.routePacket pkt).1.sessHeap[idx]? =
          (m.sessHeap[idx]?).map (fun s => deliverPacket s pkt) ∧
        (∀ j, j ≠ idx → (m.routePacket pkt).1.sessHeap[j]? = m.sessHeap[j]?) ∧
        (m.routePacket pkt).1.defPacketQ = m.defPacketQ) ∧
    (m.closed = false → findSess m.allSess pkt.header.sessionID = none →
      m.hasDefHandler = true →
        (m.routePacket pkt).2 = RouteOutcome.toDefault ∧
        (m.routePacket pkt).1.sessHeap = m.sessHeap ∧
        (m.routePacket pkt).1.defPacketQ = m.defPacketQ.push pkt) ∧
    (m.closed = false → findSess m.allSess pkt.header.sessionID = none →
      m.hasDefHandler = false → m.routePacket pkt = (m, RouteOutcome.dropped)) := by
  refine ⟨?_, ?_, ?_, ?_⟩
  · intro hc
    simp [SimpleMux.routePacket, hc]
  · intro hc idx hfind
    have hroute : m.routePacket pkt =
        ({ m with sessHeap := listModify (fun s => deliverPacket s pkt) m.sessHeap idx },
          RouteOutcome.toSession pkt.header.sessionID) := by
      simp [SimpleMux.routePacket, hc, hfind]
    rw [hroute]
    refine ⟨rfl, ?_, ?_, rfl⟩
    · dsimp only
      rw [listModify_getElem?, if_pos rfl]
    · intro j hj
      dsimp only
      rw [listModify_getElem?, if_neg hj]
  · intro hc hfind hdef
    simp [SimpleMux.routePacket, hc, hfind, hdef]
  · intro hc hfind hdef
    simp [SimpleMux.routePacket, hc, hfind, hdef]

theorem claim5_witness :
    (mux7.routePacket { header := { sessionID := 7, bodyLen := 0 }, body := [] }).2 =
      RouteOutcome.toSession 7 :=
  ((claim5_route_unique mux7
    { header := { sessionID := 7, bodyLen := 0 }, body := [] }).2.1 rfl 0 rfl).1

/-! ### Claim C7 -/

/-- C7: `mux.Close()` is idempotent.  Closing an open mux marks it
closed; a second `Close` is a no-op; the connection's `Close` runs
exactly once over both calls; and every session registered at close time
whose error channel was empty gets `kSimpleMuxClosed` stored into it
exactly once. -/
theorem claim7_close_idempotent (m : SimpleMux) (hop : m.closed = false) :
    (SimpleMux.Close m).closed = true ∧
    SimpleMux.Close (SimpleMux.Close m) = SimpleMux.Close m ∧
    (SimpleMux.Close m).connCloseCount = m.connCloseCount + 1 ∧
    (SimpleMux.Close (SimpleMux.Close m)).connCloseCount = m.connCloseCount + 1 ∧
    (∀ id idx s, (id, idx) ∈ m.allSess → m.sessHeap[idx]? = some s → s.errCh = none →
      (SimpleMux.Close m).sessHeap[idx]? =
        some { s with errCh := some MuxError.simpleMuxClosed,
                      errRaises := s.errRaises + 1 }) := by
  have hclosed : ∀ (m' : SimpleMux) (e : MuxError), m'.closed = true → m'.close e = m' := by
    intro m' e h
    simp [SimpleMux.close, h]
  have hcl : (SimpleMux.Close m).closed = true := by
    simp [SimpleMux.Close, SimpleMux.close, hop]
  have hid : SimpleMux.Close (SimpleMux.Close m) = SimpleMux.Close m :=
    hclosed _ _ hcl
  have hcount : (SimpleMux.Close m).connCloseCount = m.connCloseCount + 1 := by
    simp [SimpleMux.Close, SimpleMux.close, hop]
  refine ⟨hcl, hid, hcount, by rw [hid]; exact hcount, ?_⟩
  intro id idx s hmem hget hnone
  have hheap : (SimpleMux.Close m).sessHeap =
      notifyAll MuxError.simpleMuxClosed m.allSess m.sessHeap := by
    simp [SimpleMux.Close, SimpleMux.close, hop]
  rw [hheap, notifyAll_getElem?]
  have hmem' : idx ∈ m.allSess.map Prod.snd := List.mem_map.mpr ⟨(id, idx), hmem, rfl⟩
  rw [if_pos hmem', hget]
  simp [raiseErr, hnone]

theorem claim7_witness :
    SimpleMux.Close (SimpleMux.Close mux7) = SimpleMux.Close mux7 ∧
    (SimpleMux.Close mux7).connCloseCount = 1 ∧
    (SimpleMux.Close mux7).sessHeap[0]? =
      some { sess7 with errCh := some MuxError.simpleMuxClosed, errRaises := 1 } := by
  have h := claim7_close_idempotent mux7 rfl
  exact ⟨h.2.1, h.2.2.1, h.2.2.2.2 7 0 sess7 (by simp [mux7]) rfl rfl⟩

/-! ### Claim C1 -/

/-- A header parser that reports session id 7 and body length -1. -/
def c1Parser : Bytes → Option SimpleMuxHeader :=
  fun _ => some { sessionID := 7, bodyLen := -1 }

/-- C1 counterexample: when the parsed header reports `bodyLen = -1`, the
reader-loop iteration is not fatal; the frame is delivered to the
registered session 7 with an empty body (the loop guard is `bodyLen > 0`;
there is no negative check). -/
theorem claim1_counterexample :
    LoopStep.isFatal (loopIteration 9 c1Parser mux7 (List.replicate 9 0)) = false ∧
    LoopStep.routeOf (loopIteration 9 c1Parser mux7 (List.replicate 9 0)) =
      some (RouteOutcome.toSession 7) ∧
    LoopStep.muxOf (loopIteration 9 c1Parser mux7 (List.replicate 9 0)) =
      { mux7 with sessHeap := [{ sess7 with
          packets := newPacketQueue.push
            { header := { sessionID := 7, bodyLen := -1 }, body := [] },
          packetNoti := true }] } := by
  decide

/-- C1 (amended): a parsed `bodyLen ≤ 0` — negative exactly like zero —
causes no body read and no shutdown: the frame is routed normally with an
empty body, leaving the post-header input untouched. -/
theorem claim1_amended (hdrSz : Nat) (hdrParser : Bytes → Option SimpleMuxHeader)
    (m : SimpleMux) (input hdr afterHdr : Bytes) (h : SimpleMuxHeader)
    (hrd : readFull input hdrSz = some (hdr, afterHdr))
    (hp : hdrParser hdr = some h) (hb : h.bodyLen ≤ 0) :
    loopIteration hdrSz hdrParser m input =
      routeStep m { header := h, body := [] } afterHdr := by
  unfold loopIteration
  rw [hrd]
  dsimp only
  rw [hp]
  dsimp only
  rw [if_neg (by omega)]

theorem claim1_amended_witness :
    loopIteration 9 c1Parser mux7 (List.replicate 9 0) =
      routeStep mux7 { header := { sessionID := 7, bodyLen := -1 }, body := [] } [] :=
  claim1_amended 9 c1Parser mux7 (List.replicate 9 0) (List.replicate 9 0) []
    { sessionID := 7, bodyLen := -1 } (by decide) rfl (by decide)

/-! ### Claim C2 -/

/-- A session for id 5 with one frame already queued. -/
def c2SessOpen : Session :=
  { id := 5, muxAttached := true, packets := newPacketQueue.push pkt0, rdTimeout := 0,
    packetNoti := true, errCh := none, errRaises := 0 }

/-- An open mux owning `c2SessOpen`. -/
def c2Mux : SimpleMux :=
  { closed := false, sessHeap := [c2SessOpen], allSess := [(5, 0)], hasDefHandler := false,
    defPacketQ := newPacketQueue, defNotiChnl := false, defQuitSignaled := false,
    connClosed := false, connCloseCount := 0, written := [] }

/-- The session after its own `Close()` completed (mux still open). -/
def c2Closed : Session := (Session.close c2Mux c2SessOpen).2

/-- C2 counterexample: after the session's close, `Recv` does drain the
queued frame, but once the queue is empty it stays blocked (with no
timeout configured it suspends forever); it does not return
`kSessionClosed` — `Session.Close` only deregisters, it raises no signal
and `Recv` never consults the detached mux pointer. -/
theorem claim2_counterexample :
    (c2Closed.recv []).1 = RecvOutcome.packet pkt0 ∧
    (((c2Closed.recv []).2).recv []).1 = RecvOutcome.blocked ∧
    RecvOutcome.blocked ≠ RecvOutcome.error MuxError.sessionClosed := by
  decide

/-- C2 (amended): after the session's close, `receive` still returns the
already-queued frames in FIFO order; once the queue is drained it never
returns `SessionClosed` (it blocks, or times out, or yields whatever
error the mux had put in the error channel — `kSessionClosed` is never
sent there). -/
theorem claim2_amended (sess : Session) (ws : List Wakeup)
    (herr : sess.errCh ≠ some MuxError.sessionClosed) :
    (sess.recv ws).1 ≠ RecvOutcome.error MuxError.sessionClosed ∧
    (∀ p l, Rep sess.packets (p :: l) →
      (sess.recv ws).1 = RecvOutcome.packet p ∧ Rep ((sess.recv ws).2).packets l) := by
  constructor
  · intro hcontra
    rcases recv_error_src ws sess MuxError.sessionClosed hcontra with h1 | h1
    · exact absurd h1 (by decide)
    · exact herr h1
  · intro p l hrep
    exact recv_rep_cons hrep ws

theorem claim2_witness :
    (c2Closed.recv [Wakeup.errW []]).1 ≠ RecvOutcome.error MuxError.sessionClosed :=
  (claim2_amended c2Closed [Wakeup.errW []] (by decide)).1

/-! ### Claim C3 -/

/-- C3 counterexample: with the mux closed (its connection closed) but the
session itself never closed, `Send` does not fail with `kSessionClosed`:
it attempts the write on the closed connection and returns that I/O
error instead. -/
theorem claim3_counterexample :
    (SimpleMux.Close mux7).connClosed = true ∧
    Session.send (SimpleMux.Close mux7) sess7 [1, 2, 3] =
      ((0, some MuxError.transportErr), SimpleMux.Close mux7) ∧
    some MuxError.transportErr ≠ some MuxError.sessionClosed := by
  decide

/-- C3 (amended): `Send` fails with `kSessionClosed` exactly when the
session's own `Close()` has completed (the back pointer is nil).  When
the session is still attached, `Send` performs the transport write: it
returns the connection's I/O error if the mux/connection was closed, and
writes the bytes otherwise. -/
theorem claim3_amended (m : SimpleMux) (sess : Session) (b : Bytes) :
    (sess.muxAttached = false →
      Session.send m sess b = ((0, some MuxError.sessionClosed), m)) ∧
    (sess.muxAttached = true → m.connClosed = true →
      Session.send m sess b = ((0, some MuxError.transportErr), m)) ∧
    (sess.muxAttached = true → m.connClosed = false →
      Session.send m sess b = ((b.length, none), { m with written := m.written ++ b })) ∧
    (∀ m' s', Session.close m sess = (m', s') →
      Session.send m' s' b = ((0, some MuxError.sessionClosed), m')) := by
  refine ⟨?_, ?_, ?_, ?_⟩
  · intro h
    simp [Session.send, h]
  · intro h1 h2
    simp [Session.send, connWrite, h1, h2]
  · intro h1 h2
    simp [Session.send, connWrite, h1, h2]
  · intro m' s' hc
    unfold Session.close at hc
    by_cases ha : sess.muxAttached = true
    · rw [if_pos ha] at hc
      have hs : s' = { sess with muxAttached := false } :=
        (congrArg Prod.snd hc).symm
      rw [hs]
      simp [Session.send]
    · rw [if_neg ha] at hc
      have hs : s' = sess := (congrArg Prod.snd hc).symm
      simp only [Bool.not_eq_true] at ha
      rw [hs]
      simp [Session.send, ha]

theorem claim3_witness :
    Session.send (Session.close mux7 sess7).1 (Session.close mux7 sess7).2 [1, 2] =
      ((0, some MuxError.sessionClosed), (Session.close mux7 sess7).1) :=
  (claim3_amended mux7 sess7 [1, 2]).2.2.2 _ _ rfl

/-! ### Claim C4 -/

/-- A session with a 5-unit receive timeout and an empty queue. -/
def c4Sess : Session :=
  { id := 3, muxAttached := true, packets := newPacketQueue, rdTimeout := 5,
    packetNoti := false, errCh := none, errRaises := 0 }

/-- C4 counterexample: a frame is pushed concurrently, the timer branch
wins the select — `Recv` returns the timeout error even though the frame
sits in the queue at that very moment (no final re-pop is performed). -/
theorem claim4_counterexample :
    (c4Sess.recv [Wakeup.timeoutW [pkt0]]).1 =
      RecvOutcome.error MuxError.sessionRdTimeout ∧
    ((((c4Sess.recv [Wakeup.timeoutW [pkt0]]).2).packets).pop).1 = some pkt0 ∧
    RecvOutcome.error MuxError.sessionRdTimeout ≠ RecvOutcome.packet pkt0 := by
  decide

/-- C4 (amended): when the timer branch fires on an armed timeout, `Recv`
returns the timeout error with no final re-pop; a frame pushed between
the last empty pop and the timer stays queued with its data-available
signal pending, and the next `Recv` call returns exactly that frame. -/
theorem claim4_amended (sess : Session) (p : Packet) (rest ws' : List Wakeup)
    (hq : Rep sess.packets []) (ht : 0 < sess.rdTimeout) :
    (sess.recv (Wakeup.timeoutW [p] :: rest)).1 =
      RecvOutcome.error MuxError.sessionRdTimeout ∧
    ((sess.recv (Wakeup.timeoutW [p] :: rest)).2).packetNoti = true ∧
    (((sess.recv (Wakeup.timeoutW [p] :: rest)).2).recv ws').1 =
      RecvOutcome.packet p := by
  have hpop := (Rep.pop_eq hq).1
  rcases hpp : sess.packets.pop with ⟨o, pq2⟩
  rw [hpp] at hpop
  simp only [List.head?] at hpop
  subst hpop
  have ht' : 0 < (applyPushes sess [p]).rdTimeout := by
    rw [applyPushes_rdTimeout]
    exact ht
  have hred : sess.recv (Wakeup.timeoutW [p] :: rest) =
      (RecvOutcome.error MuxError.sessionRdTimeout, applyPushes sess [p]) := by
    simp only [Session.recv, hpp]
    rw [if_pos ht']
  rw [hred]
  have hrep : Rep (applyPushes sess [p]).packets ([] ++ [p]) :=
    applyPushes_rep [p] sess [] hq
  rw [List.nil_append] at hrep
  exact ⟨rfl, rfl, (recv_rep_cons hrep ws').1⟩

theorem claim4_amended_witness :
    (c4Sess.recv [Wakeup.timeoutW [pkt0]]).1 =
      RecvOutcome.error MuxError.sessionRdTimeout :=
  (claim4_amended c4Sess pkt0 [] [] rep_new (by decide)).1

/-! ### Claim C8 -/

/-- Bitwise or of a shifted value with a small value is addition. -/
lemma lor_eq_add_of_lt (n : Nat) :
    ∀ h b : Nat, b < 2 ^ n → h * 2 ^ n ||| b = h * 2 ^ n + b := by
  induction n with
  | zero =>
    intro h b hb
    have hb0 : b = 0 := by simpa using hb
    subst hb0
    simp
  | succ n ih =>
    intro h b hb
    have h2 : (2 : Nat) ^ (n + 1) = 2 ^ n * 2 := by ring
    have hdiv : (h * 2 ^ (n + 1) ||| b) / 2 = h * 2 ^ n ||| b / 2 := by
      rw [Nat.or_div_two]
      congr 1
      rw [h2, ← Nat.mul_assoc]
      exact Nat.mul_div_cancel _ (by omega)
    have hmod0 : (h * 2 ^ (n + 1)) % 2 = 0 := by
      rw [h2, ← Nat.mul_assoc]
      exact Nat.mul_mod_left _ 2
    have hmod : (h * 2 ^ (n + 1) ||| b) % 2 = b % 2 := by
      have hiff := Nat.or_mod_two_eq_one (a := h * 2 ^ (n + 1)) (b := b)
      omega
    have hblt : b / 2 < 2 ^ n := by
      rw [h2] at hb
      omega
    have ihb := ih h (b / 2) hblt
    have hx := Nat.div_add_mod (h * 2 ^ (n + 1) ||| b) 2
    rw [hdiv, hmod, ihb] at hx
    have hM : h * 2 ^ (n + 1) = h * 2 ^ n * 2 := by
      rw [h2, Nat.mul_assoc]
    rw [← hx, hM]
    generalize h * 2 ^ n = M
    omega

/-- Splitting a generated session id into its high and low 32 bits. -/
lemma getNextSessID_eq (nowUnix counter : Nat) :
    (getNextSessID nowUnix counter).2 < 4294967296 ∧
    0 < (getNextSessID nowUnix counter).2 ∧
    (getNextSessID nowUnix counter).1 =
      (nowUnix % 4294967296) * 4294967296 + (getNextSessID nowUnix counter).2 := by
  have hbase : (getNextSessID nowUnix counter).2 < 4294967296 ∧
      0 < (getNextSessID nowUnix counter).2 := by
    unfold getNextSessID
    dsimp only
    split <;> omega
  refine ⟨hbase.1, hbase.2, ?_⟩
  show (((nowUnix % 18446744073709551616) <<< 32) % 18446744073709551616) |||
      (getNextSessID nowUnix counter).2 = _
  rw [Nat.shiftLeft_eq]
  have h64 : (18446744073709551616 : Nat) = 4294967296 * 4294967296 := by norm_num
  have hhi : ((nowUnix % 18446744073709551616) * 2 ^ 32) % 18446744073709551616 =
      (nowUnix % 4294967296) * 4294967296 := by
    have h32 : (2 : Nat) ^ 32 = 4294967296 := by norm_num
    rw [h32, h64, Nat.mul_mod_mul_right]
    rw [Nat.mod_mod_of_dvd nowUnix ⟨4294967296, rfl⟩]
  rw [hhi]
  have := lor_eq_add_of_lt 32 (nowUnix % 4294967296) (getNextSessID nowUnix counter).2
    (by norm_num; exact hbase.1)
  norm_num at this
  exact this

/-- Closed form of the 32-bit counter: the value returned by call `i`
(counting from 0, counter initialised to 0) is `i % (2^32 - 1) + 1` —
the counter cycles through `1 .. 2^32 - 1`, skipping zero on wrap. -/
lemma sessIDSeq_counter (times : Nat → Nat) :
    ∀ i, (sessIDSeq times i).2 = i % 4294967295 + 1 := by
  intro i
  induction i with
  | zero =>
    show (getNextSessID (times 0) 0).2 = 0 % 4294967295 + 1
    norm_num [getNextSessID]
  | succ i ih =>
    show (getNextSessID (times (i + 1)) (sessIDSeq times i).2).2 = (i + 1) % 4294967295 + 1
    rw [ih]
    unfold getNextSessID
    dsimp only
    split <;> omega

/-- Every id in the sequence splits into creation-time seconds (high) and
counter value (low). -/
lemma sessIDSeq_decomp (times : Nat → Nat) (i : Nat) :
    (sessIDSeq times i).1 =
      (times i % 4294967296) * 4294967296 + (sessIDSeq times i).2 ∧
    0 < (sessIDSeq times i).2 ∧ (sessIDSeq times i).2 < 4294967296 := by
  cases i with
  | zero =>
    obtain ⟨h1, h2, h3⟩ := getNextSessID_eq (times 0) 0
    exact ⟨h3, h2, h1⟩
  | succ i =>
    obtain ⟨h1, h2, h3⟩ := getNextSessID_eq (times (i + 1)) (sessIDSeq times i).2
    exact ⟨h3, h2, h1⟩

/-- C8 counterexample: with the transport opened at wall-clock second 100
and the second session created one second later, the generated id carries
101 — the creation-time seconds — in its high 32 bits, not the
transport-open value 100 that the spec's generation rule produces. -/
theorem claim8_counterexample :
    (sessIDSeq (fun k => 100 + k) 1).1 >>> 32 = 101 ∧
    specSessionID 100 ((sessIDSeq (fun k => 100 + k) 1).2) ≠
      (sessIDSeq (fun k => 100 + k) 1).1 := by
  decide

/-- C8 (amended): every generated id is non-zero; its high 32 bits are
the wall-clock seconds of the `NewSession` call itself (mod `2^32`), its
low 32 bits the zero-skipping counter `i % (2^32-1) + 1`; and ids of two
calls are distinct whenever fewer than `2^32 - 1` calls separate them (a
collision needs a full counter wrap meeting an equal second mod `2^32`). -/
theorem claim8_amended (times : Nat → Nat) (i j : Nat) (hij : i < j)
    (hgap : j - i < 4294967295) :
    (sessIDSeq times i).1 ≠ 0 ∧
    (sessIDSeq times i).1 >>> 32 = times i % 4294967296 ∧
    (sessIDSeq times i).1 % 4294967296 = i % 4294967295 + 1 ∧
    (sessIDSeq times i).1 ≠ (sessIDSeq times j).1 := by
  obtain ⟨hdec_i, hpos_i, hlt_i⟩ := sessIDSeq_decomp times i
  obtain ⟨hdec_j, hpos_j, hlt_j⟩ := sessIDSeq_decomp times j
  have hc_i := sessIDSeq_counter times i
  have hc_j := sessIDSeq_counter times j
  have hmod_i : (sessIDSeq times i).1 % 4294967296 = (sessIDSeq times i).2 := by
    omega
  have hmod_j : (sessIDSeq times j).1 % 4294967296 = (sessIDSeq times j).2 := by
    omega
  refine ⟨by omega, ?_, by omega, ?_⟩
  · rw [Nat.shiftRight_eq_div_pow]
    have h32 : (2 : Nat) ^ 32 = 4294967296 := by norm_num
    rw [h32]
    omega
  · intro heq
    have hsame : (sessIDSeq times i).1 % 4294967296 =
        (sessIDSeq times j).1 % 4294967296 := by rw [heq]
    omega

theorem claim8_witness :
    (sessIDSeq (fun _ => 100) 0).1 ≠ (sessIDSeq (fun _ => 100) 2).1 :=
  (claim8_amended (fun _ => 100) 0 2 (by omega) (by omega)).2.2.2

/-! ### Claim C10 -/

/-- `Session.Recv` can only return the timeout error when the session's
configured timeout is positive: with `rdTimeout ≤ 0` the timer channel is
never armed, so the timer branch never fires. -/
lemma recv_no_timeout (ws : List Wakeup) :
    ∀ sess : Session, sess.rdTimeout ≤ 0 →
      sess.errCh ≠ some MuxError.sessionRdTimeout →
      (sess.recv ws).1 ≠ RecvOutcome.error MuxError.sessionRdTimeout := by
  induction ws with
  | nil =>
    intro sess h1 h2 hcontra
    rcases hpp : sess.packets.pop with ⟨o, pq2⟩
    cases o <;> simp [Session.recv, hpp] at hcontra
  | cons w rest ih =>
    intro sess h1 h2 hcontra
    rcases hpp : sess.packets.pop with ⟨o, pq2⟩
    cases o with
    | some p => simp [Session.recv, hpp] at hcontra
    | none =>
      cases w with
      | notiW pushed =>
        simp only [Session.recv, hpp] at hcontra
        exact ih _ (by simpa [applyPushes_rdTimeout] using h1)
          (by simpa [applyPushes_errCh] using h2) hcontra
      | errW pushed =>
        simp only [Session.recv, hpp] at hcontra
        rcases he : (applyPushes sess pushed).errCh with - | e2
        · rw [he] at hcontra
          simp at hcontra
        · rw [he] at hcontra
          simp only [RecvOutcome.error.injEq] at hcontra
          apply h2
          rw [← applyPushes_errCh pushed sess, he, hcontra]
      | timeoutW pushed =>
        simp only [Session.recv, hpp] at hcontra
        have hto : ¬ 0 < (applyPushes sess pushed).rdTimeout := by
          rw [applyPushes_rdTimeout]
          omega
        rw [if_neg hto] at hcontra
        exact ih _ (by simpa [applyPushes_rdTimeout] using h1)
          (by simpa [applyPushes_errCh] using h2) hcontra

/-- C10: `SetRecvTimeout` with any non-positive duration disables the
timeout — every subsequent `Recv` waits only on the data-available and
error signals and can never return the timeout error. -/
theorem claim10_nonpositive_timeout (sess : Session) (d : Int) (ws : List Wakeup)
    (hd : d ≤ 0) (herr : sess.errCh ≠ some MuxError.sessionRdTimeout) :
    ((sess.setRecvTimeout d).recv ws).1 ≠ RecvOutcome.error MuxError.sessionRdTimeout := by
  apply recv_no_timeout
  · exact hd
  · exact herr

theorem claim10_witness :
    ((c4Sess.setRecvTimeout (-3)).recv [Wakeup.timeoutW [], Wakeup.errW []]).1 ≠
      RecvOutcome.error MuxError.sessionRdTimeout :=
  claim10_nonpositive_timeout c4Sess (-3) [Wakeup.timeoutW [], Wakeup.errW []]
    (by decide) (by decide)

end SimpleMuxVerification
